import Mathlib

/-!
Verification development for the emission / staking core of the nuklaivm
repository (package emission, file emission.go).

Modelling conventions, used throughout:

* Go uint64 values are modelled as natural numbers; every arithmetic
  operation the Go code performs on uint64 is performed through add64 and
  sub64, which reduce modulo 2^64 exactly as Go wrapping arithmetic does.
* Go float64 expressions are modelled over the rationals.  Every
  conversion uint64(expr) of a non-negative float expression is modelled by
  goFloor, truncation toward zero.  In the reward/fee split
  distributeValidatorRewards the two IEEE-754 roundings of the source
  expression uint64(float64(total) * rate) are modelled explicitly by fl,
  round-to-nearest with ties-to-even at 53 bits of precision (the binade
  is located by lg2, a fuelled binary search, so that the model is
  executable inside the kernel).  At the remaining float sites (APR and
  per-stake-unit rates) the arithmetic is modelled exactly over the
  rationals, and the concrete inputs used in the theorems below are chosen
  so that the float64 computations of the source are exact there, making
  the model and the source agree on them.
* Go maps are modelled as association lists; map iteration is a left fold
  in list order.  The concrete results proved below do not depend on the
  iteration order.
* The clock sources of the engine (last accepted block height and
  timestamp, emission.go lines 574-584) are passed as explicit parameters;
  timestamps are Unix seconds as naturals and time.After is strict
  greater-than.
* The external storage layer consulted by CalculateUserDelegationRewards
  (storage.GetDelegateUserStake) is passed as an explicit lookup function
  parameter of type StakeLookup.
-/

namespace NuklaiVM

/-- Modulus of Go uint64 arithmetic. -/
def W64 : ℕ := 18446744073709551616

/-- Wrapping uint64 addition, as Go computes a + b on uint64. -/
def add64 (a b : ℕ) : ℕ := (a + b) % W64

/-- Wrapping uint64 subtraction, as Go computes a - b on uint64. -/
def sub64 (a b : ℕ) : ℕ := (a + W64 - b % W64) % W64

/-- Conversion uint64(q) of a non-negative float64 value, modelled over the
rationals: truncation toward zero (floor for non-negative values). -/
def goFloor (q : ℚ) : ℕ := q.num.toNat / q.den

/-- Doubling search for an exponent e (starting from the given one) with
n < 2^e, used to bracket the leading binary digit of n.  The fuel only
bounds the number of doublings; lg2_spec discharges it. -/
def expAbove : ℕ → ℕ → ℕ → ℕ
  | 0, _, e => e
  | fuel + 1, n, e => if 2 ^ e ≤ n then expAbove fuel n (e * 2) else e

/-- Binary search for the floor base-2 logarithm of n inside a bracket
lo ≤ log2 n < hi, shrinking the bracket by halving; the fuel bounds the
number of halvings. -/
def lg2Search : ℕ → ℕ → ℕ → ℕ → ℕ
  | 0, _, lo, _ => lo
  | fuel + 1, n, lo, hi =>
    if hi ≤ lo + 1 then lo
    else if 2 ^ ((lo + hi) / 2) ≤ n then lg2Search fuel n ((lo + hi) / 2) hi
    else lg2Search fuel n lo ((lo + hi) / 2)

/-- Floor base-2 logarithm of a natural number (0 at 0), computed by a
doubling search followed by a binary search so that only logarithmically
many steps are forced during kernel reduction. -/
def lg2 (n : ℕ) : ℕ := lg2Search (n + 2) n 0 (expAbove (n + 2) n 1)

/-- Floor base-2 logarithm of the positive rational n / d, as an integer:
either lg2 n - lg2 d or one less, decided by one comparison. -/
def qLog2 (n d : ℕ) : ℤ :=
  if lg2 d ≤ lg2 n then
    (if d * 2 ^ (lg2 n - lg2 d) ≤ n then ((lg2 n - lg2 d : ℕ) : ℤ)
     else ((lg2 n - lg2 d : ℕ) : ℤ) - 1)
  else
    (if d ≤ n * 2 ^ (lg2 d - lg2 n) then -((lg2 d - lg2 n : ℕ) : ℤ)
     else -((lg2 d - lg2 n : ℕ) : ℤ) - 1)

/-- Rounding of the exact quotient N / D to the nearest integer with
ties-to-even, the rounding rule of IEEE-754 binary64. -/
def flRound (N D : ℕ) : ℕ :=
  if 2 * (N % D) < D then N / D
  else if D < 2 * (N % D) then N / D + 1
  else if (N / D) % 2 = 0 then N / D else N / D + 1

/-- Rounding of a rational to the nearest IEEE-754 binary64 value
(round-to-nearest, ties-to-even, 53-bit significand, unbounded exponent
range, which is exact for the magnitudes this code handles): the
significand window is located with qLog2 and the scaled quotient rounded
with flRound.  Defined as 0 on non-positive inputs, which is all this
development evaluates it on. -/
def fl (q : ℚ) : ℚ :=
  if q ≤ 0 then 0
  else if qLog2 q.num.toNat q.den ≤ 52 then
    ((flRound (q.num.toNat * 2 ^ (52 - qLog2 q.num.toNat q.den).toNat) q.den : ℕ) : ℚ) /
      ((2 ^ (52 - qLog2 q.num.toNat q.den).toNat : ℕ) : ℚ)
  else
    ((flRound q.num.toNat (q.den * 2 ^ (qLog2 q.num.toNat q.den - 52).toNat) *
      2 ^ (qLog2 q.num.toNat q.den - 52).toNat : ℕ) : ℚ)

/-- Result of the external storage lookup storage.GetDelegateUserStake for a
(delegator, validator) pair: a storage-layer error, a missing stake record,
or the recorded stake amount. -/
inductive StakeLookup where
  | storageErr : StakeLookup
  | missing : StakeLookup
  | found (amount : ℕ) : StakeLookup
deriving DecidableEq

/-- Error kinds surfaced by the emission engine (errors.go of the emission
package). -/
inductive EmissionErr where
  | validatorNotFound : EmissionErr
  | validatorAlreadyRegistered : EmissionErr
  | delegatorNotFound : EmissionErr
  | delegatorAlreadyStaked : EmissionErr
  | stakeNotFound : EmissionErr
  | storageError : EmissionErr
deriving DecidableEq

/-- Validator (emission.go lines 23-37).  Node identifiers and public keys
are opaque and modelled by naturals; DelegationFeeRate is a float64 modelled
exactly as a rational; the two owned Go maps (delegatorsLastClaim and
epochRewards) are association lists. -/
structure Validator where
  isActive : Bool
  nodeID : ℕ
  publicKey : ℕ
  stakedAmount : ℕ
  unclaimedStakedReward : ℕ
  delegationFeeRate : ℚ
  delegatedAmount : ℕ
  unclaimedDelegatedReward : ℕ
  delegatorsLastClaim : List (ℕ × ℕ)
  epochRewards : List (ℕ × ℕ)
  stakeStartTime : ℕ
  stakeEndTime : ℕ
deriving DecidableEq

/-- Emission aggregate root (emission.go lines 50-64) together with the
EmissionAccount unclaimed balance and the EpochTracker configuration fields
it owns. -/
structure EmissionState where
  totalSupply : ℕ
  maxSupply : ℕ
  emissionUnclaimedBalance : ℕ
  validators : List (ℕ × Validator)
  totalStaked : ℕ
  baseAPR : ℚ
  baseValidators : ℕ
  epochLength : ℕ
deriving DecidableEq

/-- Lookup in an association list modelling a Go map read m[k]. -/
def lookupA {β : Type} (k : ℕ) : List (ℕ × β) → Option β
  | [] => none
  | (k2, v) :: rest => if k2 = k then some v else lookupA k rest

/-- Update or insert in an association list, modelling a Go map write
m[k] = v (and the in-place mutation of the entry a Go map of pointers
exhibits). -/
def setAssoc {β : Type} (k : ℕ) (v : β) : List (ℕ × β) → List (ℕ × β)
  | [] => [(k, v)]
  | (k2, v2) :: rest => if k2 = k then (k, v) :: rest else (k2, v2) :: setAssoc k v rest

/-- Deletion from an association list, modelling Go delete(m, k). -/
def eraseAssoc {β : Type} (k : ℕ) : List (ℕ × β) → List (ℕ × β)
  | [] => []
  | (k2, v2) :: rest => if k2 = k then rest else (k2, v2) :: eraseAssoc k rest

/-- Sum of StakedAmount + DelegatedAmount over the validators whose IsActive
flag is set, the quantity the spec says TotalStaked tracks. -/
def activeStakeSum (vs : List (ℕ × Validator)) : ℕ :=
  vs.foldl (fun acc p => if p.2.isActive then acc + p.2.stakedAmount + p.2.delegatedAmount else acc) 0

/-- AddToTotalSupply (emission.go lines 104-114): clamp the increment so the
total supply does not pass the max supply, then add; returns the new total
supply. -/
def addToTotalSupply (e : EmissionState) (amount : ℕ) : EmissionState × ℕ :=
  let amount2 := if add64 e.totalSupply amount > e.maxSupply then sub64 e.maxSupply e.totalSupply else amount
  let ts := add64 e.totalSupply amount2
  ({ e with totalSupply := ts }, ts)

/-- GetAPRForValidators (emission.go lines 138-148): base APR, decayed
proportionally once the validator count passes the base count. -/
def getAPRForValidators (e : EmissionState) : ℚ :=
  if e.validators.length > e.baseValidators then
    e.baseAPR / ((e.validators.length : ℚ) / (e.baseValidators : ℚ))
  else e.baseAPR

/-- GetRewardsPerEpoch (emission.go lines 152-162): epoch reward from total
stake and APR, clamped so the total supply does not pass the max supply. -/
def getRewardsPerEpoch (e : EmissionState) : ℕ :=
  let rewardsPerBlock :=
    goFloor ((((((e.totalStaked : ℚ) * getAPRForValidators e) / 365) / 24) / 60) / 60 *
      ((e.epochLength : ℚ) * 3))
  if add64 e.totalSupply rewardsPerBlock > e.maxSupply then sub64 e.maxSupply e.totalSupply
  else rewardsPerBlock

/-- CalculateUserDelegationRewards (emission.go lines 166-208): replays the
recorded per-epoch delegation rewards from the epoch of the last claim
(inclusive) to the epoch of the given height (exclusive), giving the
delegator the fraction userStakedAmount / DelegatedAmount of each, truncated
per epoch. -/
def calculateUserDelegationRewards (e : EmissionState) (getStake : ℕ → ℕ → StakeLookup)
    (nodeID actor currentBlockHeight : ℕ) : Except EmissionErr ℕ :=
  match lookupA nodeID e.validators with
  | none => .error .validatorNotFound
  | some validator =>
    match lookupA actor validator.delegatorsLastClaim with
    | none => .error .delegatorNotFound
    | some lastClaimHeight =>
      match getStake actor nodeID with
      | .storageErr => .error .storageError
      | .missing => .error .stakeNotFound
      | .found userStakedAmount =>
        let startEpoch := lastClaimHeight / e.epochLength
        let endEpoch := currentBlockHeight / e.epochLength
        let totalReward := (List.range (endEpoch - startEpoch)).foldl (fun acc i =>
          match lookupA (startEpoch + i) validator.epochRewards with
          | some reward =>
            add64 acc (goFloor (((userStakedAmount : ℚ) / (validator.delegatedAmount : ℚ)) * (reward : ℚ)))
          | none => acc) 0
        .ok totalReward

/-- RegisterValidatorStake (emission.go lines 212-247): fails when the entry
exists and is active; an existing inactive entry is updated in place (stake
incremented, fee rate and window replaced, delegator and epoch history
kept); otherwise a fresh inactive entry with empty history is created.  The
integer fee-rate input is stored divided by 100. -/
def registerValidatorStake (e : EmissionState)
    (nodeID publicKey stakeStartTime stakeEndTime stakedAmount delegationFeeRate : ℕ) :
    Except EmissionErr Unit × EmissionState :=
  match lookupA nodeID e.validators with
  | some validator =>
    if validator.isActive then (.error .validatorAlreadyRegistered, e)
    else
      let v2 := { validator with
        publicKey := publicKey
        stakedAmount := add64 validator.stakedAmount stakedAmount
        delegationFeeRate := (delegationFeeRate : ℚ) / 100
        stakeStartTime := stakeStartTime
        stakeEndTime := stakeEndTime }
      (.ok (), { e with validators := setAssoc nodeID v2 e.validators })
  | none =>
    let v2 : Validator := {
      isActive := false
      nodeID := nodeID
      publicKey := publicKey
      stakedAmount := stakedAmount
      unclaimedStakedReward := 0
      delegationFeeRate := (delegationFeeRate : ℚ) / 100
      delegatedAmount := 0
      unclaimedDelegatedReward := 0
      delegatorsLastClaim := []
      epochRewards := []
      stakeStartTime := stakeStartTime
      stakeEndTime := stakeEndTime }
    (.ok (), { e with validators := setAssoc nodeID v2 e.validators })

/-- WithdrawValidatorStake (emission.go lines 251-283): pays out and zeroes
the unclaimed staked reward, subtracts the staked amount from TotalStaked if
the validator was active, marks it inactive; when it has no delegators it
additionally folds in and zeroes the unclaimed delegated reward, subtracts
the delegated amount from TotalStaked and deletes the entry. -/
def withdrawValidatorStake (e : EmissionState) (nodeID : ℕ) :
    Except EmissionErr ℕ × EmissionState :=
  match lookupA nodeID e.validators with
  | none => (.error .validatorNotFound, e)
  | some validator =>
    let rewardAmount := validator.unclaimedStakedReward
    let v2 := { validator with unclaimedStakedReward := 0 }
    let ts := if v2.isActive then sub64 e.totalStaked v2.stakedAmount else e.totalStaked
    let v3 := { v2 with isActive := false }
    if v3.delegatorsLastClaim.length = 0 then
      (.ok (add64 rewardAmount v3.unclaimedDelegatedReward),
        { e with totalStaked := sub64 ts v3.delegatedAmount,
                 validators := eraseAssoc nodeID e.validators })
    else
      (.ok rewardAmount,
        { e with totalStaked := ts, validators := setAssoc nodeID v3 e.validators })

/-- DelegateUserStake (emission.go lines 286-317): adds the stake to the
delegated amount, adds it to TotalStaked only when the validator is active,
and records the delegator last-claim checkpoint at the current height. -/
def delegateUserStake (e : EmissionState) (lastAcceptedBlockHeight nodeID delegatorAddress stakeAmount : ℕ) :
    Except EmissionErr Unit × EmissionState :=
  match lookupA nodeID e.validators with
  | none => (.error .validatorNotFound, e)
  | some validator =>
    match lookupA delegatorAddress validator.delegatorsLastClaim with
    | some _ => (.error .delegatorAlreadyStaked, e)
    | none =>
      let v2 := { validator with delegatedAmount := add64 validator.delegatedAmount stakeAmount }
      let ts := if v2.isActive then add64 e.totalStaked stakeAmount else e.totalStaked
      let v3 := { v2 with delegatorsLastClaim := setAssoc delegatorAddress lastAcceptedBlockHeight v2.delegatorsLastClaim }
      (.ok (), { e with totalStaked := ts, validators := setAssoc nodeID v3 e.validators })

/-- UndelegateUserStake (emission.go lines 320-364): computes the pending
delegation reward, moves the last-claim checkpoint, decrements the shared
unclaimed delegated reward by the computed amount (a wrapping uint64
decrement), decrements the delegated amount and, if active, TotalStaked,
removes the delegator entry, and deletes the validator when it is inactive
with no delegators left. -/
def undelegateUserStake (e : EmissionState) (getStake : ℕ → ℕ → StakeLookup)
    (lastAcceptedBlockHeight nodeID actor stakeAmount : ℕ) :
    Except EmissionErr ℕ × EmissionState :=
  match lookupA nodeID e.validators with
  | none => (.error .validatorNotFound, e)
  | some validator =>
    match lookupA actor validator.delegatorsLastClaim with
    | none => (.error .delegatorNotFound, e)
    | some _ =>
      match calculateUserDelegationRewards e getStake nodeID actor lastAcceptedBlockHeight with
      | .error err => (.error err, e)
      | .ok rewardAmount =>
        let v2 := { validator with
          delegatorsLastClaim := setAssoc actor lastAcceptedBlockHeight validator.delegatorsLastClaim
          unclaimedDelegatedReward := sub64 validator.unclaimedDelegatedReward rewardAmount }
        let v3 := { v2 with delegatedAmount := sub64 v2.delegatedAmount stakeAmount }
        let ts := if v3.isActive then sub64 e.totalStaked stakeAmount else e.totalStaked
        let v4 := { v3 with delegatorsLastClaim := eraseAssoc actor v3.delegatorsLastClaim }
        if v4.isActive = false ∧ v4.delegatorsLastClaim.length = 0 then
          (.ok rewardAmount,
            { e with totalStaked := ts, validators := eraseAssoc nodeID e.validators })
        else
          (.ok rewardAmount,
            { e with totalStaked := ts, validators := setAssoc nodeID v4 e.validators })

/-- ClaimStakingRewards (emission.go lines 367-403): actor 0 is the empty
address and denotes the validator claiming its own staked reward (folding in
the delegated pool when there are no delegators); any other actor is a
delegator claim that moves the checkpoint and decrements the shared pool. -/
def claimStakingRewards (e : EmissionState) (getStake : ℕ → ℕ → StakeLookup)
    (lastAcceptedBlockHeight nodeID actor : ℕ) :
    Except EmissionErr ℕ × EmissionState :=
  match lookupA nodeID e.validators with
  | none => (.error .validatorNotFound, e)
  | some validator =>
    if actor = 0 then
      let rewardAmount := validator.unclaimedStakedReward
      let v2 := { validator with unclaimedStakedReward := 0 }
      if v2.delegatorsLastClaim.length = 0 then
        (.ok (add64 rewardAmount v2.unclaimedDelegatedReward),
          { e with validators := setAssoc nodeID { v2 with unclaimedDelegatedReward := 0 } e.validators })
      else
        (.ok rewardAmount, { e with validators := setAssoc nodeID v2 e.validators })
    else
      match calculateUserDelegationRewards e getStake nodeID actor lastAcceptedBlockHeight with
      | .error err => (.error err, e)
      | .ok reward =>
        let v2 := { validator with
          delegatorsLastClaim := setAssoc actor lastAcceptedBlockHeight validator.delegatorsLastClaim
          unclaimedDelegatedReward := sub64 validator.unclaimedDelegatedReward reward }
        (.ok reward, { e with validators := setAssoc nodeID v2 e.validators })

/-- Reward/fee split distributeValidatorRewards (emission.go lines 521-528):
with a positive delegated amount the delegation share is the source
expression uint64(float64(totalValidatorReward) * delegationFeeRate):
the uint64 total is converted to float64 (first fl rounding), multiplied in
float64 by the stored fee rate (second fl rounding), and the product
truncated by goFloor; the validator keeps the rest.  With no delegation
the validator keeps everything.  Returned in source order:
(validator share, delegation share). -/
def distributeValidatorRewards (totalValidatorReward : ℕ) (delegationFeeRate : ℚ)
    (delegatedAmount : ℕ) : ℕ × ℕ :=
  let delegationRewards :=
    if delegatedAmount > 0 then
      goFloor (fl (fl (totalValidatorReward : ℚ) * delegationFeeRate))
    else 0
  (sub64 totalValidatorReward delegationRewards, delegationRewards)

/-- One iteration of the per-validator loop of MintNewNAI (emission.go lines
424-456), threading (actualRewards, TotalStaked, processed validators).
When the last-block timestamp has passed the stake start the validator is
marked active and its full stake added to TotalStaked (the source has no
previously-inactive check here); inactive validators are skipped; one past
its stake end is deactivated, its full stake subtracted, and skipped;
otherwise it receives its proportional reward, split between validator and
delegators, with the delegation share recorded under the epoch number. -/
def mintStep (lastBlockTime : ℕ) (rewardsPerStakeUnit : ℚ) (epochNumber : ℕ)
    (acc : ℕ × ℕ × List (ℕ × Validator)) (p : ℕ × Validator) : ℕ × ℕ × List (ℕ × Validator) :=
  let actualRewards := acc.1
  let totalStaked := acc.2.1
  let done := acc.2.2
  let validator := p.2
  let v1 := if lastBlockTime > validator.stakeStartTime then { validator with isActive := true } else validator
  let ts1 := if lastBlockTime > validator.stakeStartTime then
      add64 totalStaked (add64 validator.stakedAmount validator.delegatedAmount)
    else totalStaked
  if v1.isActive = false then (actualRewards, ts1, done ++ [(p.1, v1)])
  else if lastBlockTime > v1.stakeEndTime then
    (actualRewards, sub64 ts1 (add64 v1.stakedAmount v1.delegatedAmount),
      done ++ [(p.1, { v1 with isActive := false })])
  else
    let validatorStake := add64 v1.stakedAmount v1.delegatedAmount
    let totalValidatorReward := goFloor ((validatorStake : ℚ) * rewardsPerStakeUnit)
    let split := distributeValidatorRewards totalValidatorReward v1.delegationFeeRate v1.delegatedAmount
    let v2 := { v1 with
      unclaimedStakedReward := add64 v1.unclaimedStakedReward split.1
      unclaimedDelegatedReward := add64 v1.unclaimedDelegatedReward split.2
      epochRewards := setAssoc epochNumber split.2 v1.epochRewards }
    (add64 actualRewards (add64 split.1 split.2), ts1, done ++ [(p.1, v2)])

/-- MintNewNAI (emission.go lines 405-467): at an epoch boundary, compute
the epoch reward and the per-stake-unit rate from the pre-loop TotalStaked,
run the per-validator lifecycle-and-distribution loop, and add the total
distributed amount to the total supply; on a non-boundary height return 0
and change nothing.  The rate totalEpochRewards / TotalStaked is a float64
division in the source; with TotalStaked = 0 the source produces NaN where
this rational model produces 0, so no theorem below evaluates that case. -/
def mintNewNAI (e : EmissionState) (lastAcceptedBlockHeight lastBlockTime : ℕ) :
    ℕ × EmissionState :=
  if lastAcceptedBlockHeight % e.epochLength = 0 then
    let totalEpochRewards := getRewardsPerEpoch e
    let rewardsPerStakeUnit : ℚ := (totalEpochRewards : ℚ) / (e.totalStaked : ℚ)
    let epochNumber := lastAcceptedBlockHeight / e.epochLength
    let r := e.validators.foldl (mintStep lastBlockTime rewardsPerStakeUnit epochNumber)
      (0, e.totalStaked, [])
    (r.1, { e with totalSupply := add64 e.totalSupply r.1, totalStaked := r.2.1,
                   validators := r.2.2 })
  else (0, e)

/-- One iteration of the per-validator loop of DistributeFees (emission.go
lines 495-518): the same lifecycle sweep as mintStep, crediting each active
validator its proportional fee share without recording epoch rewards. -/
def feeStep (lastBlockTime : ℕ) (feesPerStakeUnit : ℚ)
    (acc : ℕ × List (ℕ × Validator)) (p : ℕ × Validator) : ℕ × List (ℕ × Validator) :=
  let totalStaked := acc.1
  let done := acc.2
  let validator := p.2
  let v1 := if lastBlockTime > validator.stakeStartTime then { validator with isActive := true } else validator
  let ts1 := if lastBlockTime > validator.stakeStartTime then
      add64 totalStaked (add64 validator.stakedAmount validator.delegatedAmount)
    else totalStaked
  if v1.isActive = false then (ts1, done ++ [(p.1, v1)])
  else if lastBlockTime > v1.stakeEndTime then
    (sub64 ts1 (add64 v1.stakedAmount v1.delegatedAmount),
      done ++ [(p.1, { v1 with isActive := false })])
  else
    let validatorStake := add64 v1.stakedAmount v1.delegatedAmount
    let totalValidatorFee := goFloor ((validatorStake : ℚ) * feesPerStakeUnit)
    let split := distributeValidatorRewards totalValidatorFee v1.delegationFeeRate v1.delegatedAmount
    let v2 := { v1 with
      unclaimedStakedReward := add64 v1.unclaimedStakedReward split.1
      unclaimedDelegatedReward := add64 v1.unclaimedDelegatedReward split.2 }
    (ts1, done ++ [(p.1, v2)])

/-- DistributeFees (emission.go lines 471-519): clamp the fee so the total
supply would not pass the max supply, credit half to the emission account,
and distribute the rest over the validators through the lifecycle sweep;
the total supply itself is never modified. -/
def distributeFees (e : EmissionState) (lastBlockTime : ℕ) (fee : ℕ) : EmissionState :=
  let fee2 := if add64 e.totalSupply fee > e.maxSupply then sub64 e.maxSupply e.totalSupply else fee
  let feesForEmission := fee2 / 2
  let e2 := { e with emissionUnclaimedBalance := add64 e.emissionUnclaimedBalance feesForEmission }
  let feesForValidators := fee2 - feesForEmission
  if e2.totalStaked = 0 ∨ feesForValidators = 0 then e2
  else
    let feesPerStakeUnit : ℚ := (feesForValidators : ℚ) / (e2.totalStaked : ℚ)
    let r := e2.validators.foldl (feeStep lastBlockTime feesPerStakeUnit) (e2.totalStaked, [])
    { e2 with totalStaked := r.1, validators := r.2 }

/-!
Concrete states used to evaluate the engine.  They satisfy the documented
invariants of the spec (TotalSupply at most MaxSupply; TotalStaked equal to
the active-stake sum; DelegatedAmount covering the recorded delegator
stakes) and use the EpochTracker configuration the source installs
(base APR 0.25, base validator count 100, epoch length 10 blocks).
-/

/-- Template validator: active, fee rate 0.1, stake window from Unix second
0 to 1000000, no delegators, no accrued rewards. -/
def valT : Validator := {
  isActive := true
  nodeID := 1
  publicKey := 11
  stakedAmount := 100
  unclaimedStakedReward := 0
  delegationFeeRate := 1/10
  delegatedAmount := 0
  unclaimedDelegatedReward := 0
  delegatorsLastClaim := []
  epochRewards := []
  stakeStartTime := 0
  stakeEndTime := 1000000 }

/-- State for C1: validator 1 is active with stake 2^32 (counted in
TotalStaked); validator 2 is registered but not yet active, with stake 2^32
and a start time that has passed, so the next sweep activates it.  Supply
headroom is 100. -/
def stC1 : EmissionState := {
  totalSupply := 1000
  maxSupply := 1100
  emissionUnclaimedBalance := 0
  validators := [(1, { valT with stakedAmount := 4294967296 }),
                 (2, { valT with isActive := false, nodeID := 2, publicKey := 22,
                                 stakedAmount := 4294967296 })]
  totalStaked := 4294967296
  baseAPR := 1/4
  baseValidators := 100
  epochLength := 10 }

/-- Validator for C2 and C7: active, own stake 100, delegated stake 50 from
delegator 5. -/
def valC2 : Validator := { valT with
  delegatedAmount := 50
  delegatorsLastClaim := [(5, 0)] }

/-- Aggregate state holding valC2 with a consistent TotalStaked of 150. -/
def stC2 : EmissionState := {
  totalSupply := 0
  maxSupply := 1000000
  emissionUnclaimedBalance := 0
  validators := [(1, valC2)]
  totalStaked := 150
  baseAPR := 1/4
  baseValidators := 100
  epochLength := 10 }

/-- State for C3: a single already-active validator with stake 100 inside
its stake window; TotalStaked is 100, matching the active-stake sum. -/
def stC3 : EmissionState := {
  totalSupply := 0
  maxSupply := 1000000
  emissionUnclaimedBalance := 0
  validators := [(1, valT)]
  totalStaked := 100
  baseAPR := 1/4
  baseValidators := 100
  epochLength := 10 }

/-- State with no validators, used to exercise register-from-scratch and
the not-found error paths. -/
def stEmpty : EmissionState := {
  totalSupply := 0
  maxSupply := 1000000
  emissionUnclaimedBalance := 0
  validators := []
  totalStaked := 0
  baseAPR := 1/4
  baseValidators := 100
  epochLength := 10 }

/-- State for C6: validator 1 is active with own stake 100 and delegated
amount 100 (delegator 5, last claim at height 0), but an unclaimed
delegated pool of only 50: the pool was partially drained by an earlier
claim computed when DelegatedAmount was larger, while epoch 0 still has a
recorded delegation reward of 100.  TotalStaked matches the active-stake
sum. -/
def valC6 : Validator := { valT with
  delegatedAmount := 100
  unclaimedDelegatedReward := 50
  delegatorsLastClaim := [(5, 0)]
  epochRewards := [(0, 100)] }

/-- Aggregate state for the C6 counterexample, holding valC6. -/
def stC6 : EmissionState := {
  totalSupply := 0
  maxSupply := 1000000
  emissionUnclaimedBalance := 0
  validators := [(1, valC6)]
  totalStaked := 200
  baseAPR := 1/4
  baseValidators := 100
  epochLength := 10 }

/-- Storage view for the C6 states: delegator 5 has a recorded stake of 100
with validator 1 and nothing else is recorded. -/
def getStakeC6 : ℕ → ℕ → StakeLookup :=
  fun a n => if a = 5 ∧ n = 1 then .found 100 else .missing

/-- Validator for the amended C6 witness: same shape as valC6 but with the
delegated pool intact at 100, fully covering the sole delegator claim. -/
def valC6w : Validator := { valC6 with unclaimedDelegatedReward := 100 }

/-- Aggregate state for the amended C6 witness, holding valC6w. -/
def stC6w : EmissionState := { stC6 with validators := [(1, valC6w)] }

/-- State for the C8 counterexample: no validators, supply 990 of max 1000,
so the fee headroom is 10. -/
def stC8 : EmissionState := {
  totalSupply := 990
  maxSupply := 1000
  emissionUnclaimedBalance := 0
  validators := []
  totalStaked := 0
  baseAPR := 1/4
  baseValidators := 100
  epochLength := 10 }

/-- Scenario state shared by the C8 scenario: one active validator with
stake 100, no delegators, fee rate 0.1; large supply headroom. -/
def stSc : EmissionState := {
  totalSupply := 0
  maxSupply := 1000000000
  emissionUnclaimedBalance := 0
  validators := [(1, valT)]
  totalStaked := 100
  baseAPR := 1/4
  baseValidators := 100
  epochLength := 10 }

deriving instance DecidableEq for Except

/-!
Helper lemmas about the uint64 model and the association-list operations.
-/

/-- Wrapping addition agrees with plain addition below the modulus. -/
theorem add64_eq {a b : ℕ} (h : a + b < W64) : add64 a b = a + b :=
  Nat.mod_eq_of_lt h

/-- Wrapping subtraction agrees with plain truncated subtraction when the
minuend is in range and at least the subtrahend. -/
theorem sub64_eq {a b : ℕ} (hba : b ≤ a) (ha : a < W64) : sub64 a b = a - b := by
  have hb : b < W64 := lt_of_le_of_lt hba ha
  have h1 : b % W64 = b := Nat.mod_eq_of_lt hb
  have h2 : a + W64 - b = (a - b) + W64 := by omega
  rw [sub64, h1, h2, Nat.add_mod_right]
  exact Nat.mod_eq_of_lt (by omega)

/-- Writing a key and reading it back yields the written value. -/
theorem lookupA_setAssoc {β : Type} (k : ℕ) (v : β) (l : List (ℕ × β)) :
    lookupA k (setAssoc k v l) = some v := by
  induction l with
  | nil => simp [setAssoc, lookupA]
  | cons p rest ih =>
    obtain ⟨k2, v2⟩ := p
    by_cases h : k2 = k
    · simp [setAssoc, lookupA, h]
    · simp [setAssoc, lookupA, h, ih]

/-- Lookup of an absent key gives nothing. -/
theorem lookupA_eq_none_of_not_mem {β : Type} (k : ℕ) (l : List (ℕ × β))
    (h : k ∉ l.map Prod.fst) : lookupA k l = none := by
  induction l with
  | nil => simp [lookupA]
  | cons p rest ih =>
    obtain ⟨k2, v2⟩ := p
    simp only [List.map_cons, List.mem_cons, not_or] at h
    simp only [lookupA, if_neg (fun hh : k2 = k => h.1 hh.symm)]
    exact ih h.2

/-- Deleting a key from a list with no duplicate keys makes it
unreadable. -/
theorem lookupA_eraseAssoc {β : Type} (k : ℕ) (l : List (ℕ × β))
    (h : (l.map Prod.fst).Nodup) : lookupA k (eraseAssoc k l) = none := by
  induction l with
  | nil => simp [eraseAssoc, lookupA]
  | cons p rest ih =>
    obtain ⟨k2, v2⟩ := p
    simp only [List.map_cons, List.nodup_cons] at h
    by_cases hk : k2 = k
    · subst hk
      simp only [eraseAssoc, if_pos rfl]
      exact lookupA_eq_none_of_not_mem k2 rest h.1
    · simp only [eraseAssoc, if_neg hk, lookupA, if_neg hk]
      exact ih h.2

/-- Truncation agrees with the integer floor on non-negative rationals. -/
theorem goFloor_eq_floor {q : ℚ} (h : 0 ≤ q) : (goFloor q : ℤ) = ⌊q⌋ := by
  have hnum : (0 : ℤ) ≤ q.num := Rat.num_nonneg.mpr h
  rw [goFloor, Rat.floor_def, ← Int.toNat_of_nonneg hnum]
  exact Int.natCast_div _ _

/-- Truncation of a non-negative rational strictly below n + 1 stays at
most n. -/
theorem goFloor_le_of_lt {y : ℚ} {n : ℕ} (h0 : 0 ≤ y) (h : y < (n : ℚ) + 1) :
    goFloor y ≤ n := by
  have h1 : (goFloor y : ℤ) = ⌊y⌋ := goFloor_eq_floor h0
  have h2 : ⌊y⌋ < (n : ℤ) + 1 := by
    rw [Int.floor_lt]
    push_cast
    exact h
  omega

/-- Correctness of the doubling search: from a positive start it reaches an
exponent above n within its fuel bound. -/
theorem expAbove_spec : ∀ (fuel n e : ℕ), 0 < e → n < 2 ^ (e * 2 ^ fuel) →
    0 < expAbove fuel n e ∧ n < 2 ^ expAbove fuel n e ∧ expAbove fuel n e ≤ e * 2 ^ fuel := by
  intro fuel
  induction fuel with
  | zero =>
    intro n e he h
    simp only [expAbove, pow_zero, mul_one] at h ⊢
    exact ⟨he, h, le_rfl⟩
  | succ fuel ih =>
    intro n e he h
    simp only [expAbove]
    by_cases hc : 2 ^ e ≤ n
    · rw [if_pos hc]
      have h2 : n < 2 ^ (e * 2 * 2 ^ fuel) := by
        have : e * 2 * 2 ^ fuel = e * 2 ^ (fuel + 1) := by ring
        rw [this]
        exact h
      obtain ⟨a, b, c⟩ := ih n (e * 2) (by omega) h2
      refine ⟨a, b, ?_⟩
      calc expAbove fuel n (e * 2) ≤ e * 2 * 2 ^ fuel := c
      _ = e * 2 ^ (fuel + 1) := by ring
    · rw [if_neg hc]
      refine ⟨he, by omega, ?_⟩
      have : 0 < 2 ^ (fuel + 1) := Nat.pos_pow_of_pos _ (by omega)
      calc e = e * 1 := (mul_one e).symm
      _ ≤ e * 2 ^ (fuel + 1) := Nat.mul_le_mul_left e this

/-- Correctness of the bracket-halving search: inside an invariant bracket
it lands on the floor logarithm when the fuel covers the bracket width. -/
theorem lg2Search_spec : ∀ (fuel n lo hi : ℕ), 2 ^ lo ≤ n → n < 2 ^ hi →
    lo < hi → hi ≤ lo + 2 ^ fuel →
    2 ^ lg2Search fuel n lo hi ≤ n ∧ n < 2 ^ (lg2Search fuel n lo hi + 1) := by
  intro fuel
  induction fuel with
  | zero =>
    intro n lo hi h1 h2 h3 h4
    simp only [pow_zero] at h4
    have hhi : hi = lo + 1 := by omega
    simp only [lg2Search]
    exact ⟨h1, hhi ▸ h2⟩
  | succ fuel ih =>
    intro n lo hi h1 h2 h3 h4
    have hP : (2:ℕ) ^ (fuel + 1) = 2 ^ fuel + 2 ^ fuel := by
      rw [pow_succ]
      omega
    simp only [lg2Search]
    by_cases hc : hi ≤ lo + 1
    · rw [if_pos hc]
      have hhi : hi = lo + 1 := by omega
      exact ⟨h1, hhi ▸ h2⟩
    · rw [if_neg hc]
      by_cases hm : 2 ^ ((lo + hi) / 2) ≤ n
      · rw [if_pos hm]
        exact ih n ((lo + hi) / 2) hi hm h2 (by omega) (by omega)
      · rw [if_neg hm]
        exact ih n lo ((lo + hi) / 2) h1 (by omega) (by omega) (by omega)

/-- Characterisation of lg2 on positive inputs: it is the floor base-2
logarithm. -/
theorem lg2_spec (n : ℕ) (hn : n ≠ 0) : 2 ^ lg2 n ≤ n ∧ n < 2 ^ (lg2 n + 1) := by
  have hlt : n < 2 ^ n := Nat.lt_two_pow n
  have had : n < 2 ^ (1 * 2 ^ (n + 2)) := by
    rw [one_mul]
    calc n < 2 ^ n := hlt
    _ ≤ 2 ^ (2 ^ (n + 2)) := by
        apply Nat.pow_le_pow_right (by omega)
        calc n ≤ 2 ^ n := le_of_lt hlt
        _ ≤ 2 ^ (n + 2) := Nat.pow_le_pow_right (by omega) (by omega)
  obtain ⟨hpos, hup, hbound⟩ := expAbove_spec (n + 2) n 1 (by omega) had
  apply lg2Search_spec (n + 2) n 0 (expAbove (n + 2) n 1)
  · simpa using Nat.one_le_iff_ne_zero.mpr hn
  · exact hup
  · exact hpos
  · simpa using hbound

/-- Upper bound transfer for lg2. -/
theorem lg2_le {n k : ℕ} (hn : n ≠ 0) (h : n < 2 ^ (k + 1)) : lg2 n ≤ k := by
  by_contra hgt
  have h1 : k + 1 ≤ lg2 n := by omega
  have h2 : (2:ℕ) ^ (k + 1) ≤ 2 ^ lg2 n := Nat.pow_le_pow_right (by omega) h1
  have h3 := (lg2_spec n hn).1
  omega

/-- Lower bound transfer for lg2. -/
theorem lg2_ge {n k : ℕ} (hn : n ≠ 0) (h : 2 ^ k ≤ n) : k ≤ lg2 n := by
  by_contra hgt
  have h1 : lg2 n + 1 ≤ k := by omega
  have h2 : (2:ℕ) ^ (lg2 n + 1) ≤ 2 ^ k := Nat.pow_le_pow_right (by omega) h1
  have h3 := (lg2_spec n hn).2
  omega

/-- In the small-binade branch of fl the scaled numerator dominates
2 to the 52 times the denominator, so the rounded mantissa has at least
53 bits of headroom. -/
theorem qLog2_small_lower {n d : ℕ} (hn : 0 < n) (hd : 0 < d)
    (h : qLog2 n d ≤ 52) : 2 ^ 52 * d ≤ n * 2 ^ (52 - qLog2 n d).toNat := by
  obtain ⟨hna, hnb⟩ := lg2_spec n (by omega)
  obtain ⟨hda, hdb⟩ := lg2_spec d (by omega)
  set a := lg2 n with hadef
  set b := lg2 d with hbdef
  rw [qLog2] at h ⊢
  by_cases hba : b ≤ a
  · rw [if_pos hba] at h ⊢
    by_cases ht : d * 2 ^ (a - b) ≤ n
    · rw [if_pos ht] at h ⊢
      have hab : a - b ≤ 52 := by exact_mod_cast h
      have he : ((52:ℤ) - (a - b : ℕ)).toNat = 52 - (a - b) := by omega
      rw [he]
      have e1 : (a - b) + (52 - (a - b)) = 52 := by omega
      calc 2 ^ 52 * d = d * 2 ^ (a - b) * 2 ^ (52 - (a - b)) := by
            rw [mul_assoc, ← pow_add, e1]
            ring
      _ ≤ n * 2 ^ (52 - (a - b)) := Nat.mul_le_mul_right _ ht
    · rw [if_neg ht] at h ⊢
      have hab : a - b ≤ 53 := by omega
      have he : ((52:ℤ) - ((a - b : ℕ) - 1)).toNat = 53 - (a - b) := by omega
      rw [he]
      have e1 : a + (53 - (a - b)) = 53 + b := by omega
      have step : 2 ^ 52 * d < 2 ^ a * 2 ^ (53 - (a - b)) := by
        calc 2 ^ 52 * d < 2 ^ 52 * 2 ^ (b + 1) :=
              mul_lt_mul_of_pos_left hdb (by positivity)
        _ = 2 ^ (53 + b) := by rw [← pow_add]; congr 1; omega
        _ = 2 ^ a * 2 ^ (53 - (a - b)) := by rw [← pow_add, e1]
      calc 2 ^ 52 * d ≤ 2 ^ a * 2 ^ (53 - (a - b)) := le_of_lt step
      _ ≤ n * 2 ^ (53 - (a - b)) := Nat.mul_le_mul_right _ hna
  · rw [if_neg hba] at h ⊢
    by_cases ht : d ≤ n * 2 ^ (b - a)
    · rw [if_pos ht] at h ⊢
      have he : ((52:ℤ) - (-((b - a : ℕ) : ℤ))).toNat = 52 + (b - a) := by omega
      rw [he]
      calc 2 ^ 52 * d ≤ 2 ^ 52 * (n * 2 ^ (b - a)) :=
            Nat.mul_le_mul_left _ ht
      _ = n * 2 ^ (52 + (b - a)) := by rw [pow_add]; ring
    · rw [if_neg ht] at h ⊢
      have he : ((52:ℤ) - (-((b - a : ℕ) : ℤ) - 1)).toNat = 53 + (b - a) := by omega
      rw [he]
      have e1 : a + (53 + (b - a)) = 53 + b := by omega
      have step : 2 ^ 52 * d < 2 ^ a * 2 ^ (53 + (b - a)) := by
        calc 2 ^ 52 * d < 2 ^ 52 * 2 ^ (b + 1) :=
              mul_lt_mul_of_pos_left hdb (by positivity)
        _ = 2 ^ (53 + b) := by rw [← pow_add]; congr 1; omega
        _ = 2 ^ a * 2 ^ (53 + (b - a)) := by rw [← pow_add, e1]
      calc 2 ^ 52 * d ≤ 2 ^ a * 2 ^ (53 + (b - a)) := le_of_lt step
      _ ≤ n * 2 ^ (53 + (b - a)) := Nat.mul_le_mul_right _ hna

/-- In the large-binade branch of fl the numerator dominates 2 to the 52
times the scaled denominator. -/
theorem qLog2_large_lower {n d : ℕ} (hn : 0 < n) (hd : 0 < d)
    (h : 52 < qLog2 n d) : 2 ^ 52 * (d * 2 ^ (qLog2 n d - 52).toNat) ≤ n := by
  obtain ⟨hna, hnb⟩ := lg2_spec n (by omega)
  obtain ⟨hda, hdb⟩ := lg2_spec d (by omega)
  set a := lg2 n with hadef
  set b := lg2 d with hbdef
  rw [qLog2] at h ⊢
  by_cases hba : b ≤ a
  · rw [if_pos hba] at h ⊢
    by_cases ht : d * 2 ^ (a - b) ≤ n
    · rw [if_pos ht] at h ⊢
      have hab : 52 < a - b := by exact_mod_cast h
      have he : (((a - b : ℕ) : ℤ) - 52).toNat = (a - b) - 52 := by omega
      rw [he]
      calc 2 ^ 52 * (d * 2 ^ ((a - b) - 52)) = d * 2 ^ (a - b) := by
            rw [mul_comm (2 ^ 52), mul_assoc, ← pow_add]
            congr 2
            omega
      _ ≤ n := ht
    · rw [if_neg ht] at h ⊢
      have hab : 53 < a - b := by omega
      have he : ((((a - b : ℕ) : ℤ) - 1) - 52).toNat = (a - b) - 53 := by omega
      rw [he]
      calc 2 ^ 52 * (d * 2 ^ ((a - b) - 53)) ≤ 2 ^ 52 * (2 ^ (b + 1) * 2 ^ ((a - b) - 53)) := by
            apply Nat.mul_le_mul_left
            exact Nat.mul_le_mul_right _ (le_of_lt hdb)
      _ = 2 ^ a := by
            rw [← pow_add, ← pow_add]
            congr 1
            omega
      _ ≤ n := hna
  · rw [if_neg hba] at h ⊢
    by_cases ht : d ≤ n * 2 ^ (b - a)
    · rw [if_pos ht] at h
      exfalso
      omega
    · rw [if_neg ht] at h
      exfalso
      omega

/-- Half-ulp bound on the rounding of a quotient: the rounded value m
satisfies 2 D m ≤ 2 N + D, i.e. m ≤ N / D + 1 / 2. -/
theorem flRound_le_half (N D : ℕ) (hD : 0 < D) : 2 * D * flRound N D ≤ 2 * N + D := by
  have hdm := Nat.div_add_mod N D
  have hr : N % D < D := Nat.mod_lt _ hD
  have ha : 2 * D * (N / D) = 2 * (D * (N / D)) := by ring
  have hb : 2 * D * (N / D + 1) = 2 * (D * (N / D)) + 2 * D := by ring
  rw [flRound]
  by_cases h1 : 2 * (N % D) < D
  · rw [if_pos h1, ha]
    omega
  · rw [if_neg h1]
    by_cases h2 : D < 2 * (N % D)
    · rw [if_pos h2, hb]
      omega
    · rw [if_neg h2]
      by_cases h3 : (N / D) % 2 = 0
      · rw [if_pos h3, ha]
        omega
      · rw [if_neg h3, hb]
        omega

/-- Non-negativity of the float64 rounding. -/
theorem fl_nonneg (q : ℚ) : 0 ≤ fl q := by
  rw [fl]
  by_cases h : q ≤ 0
  · rw [if_pos h]
  · rw [if_neg h]
    by_cases h2 : qLog2 q.num.toNat q.den ≤ 52
    · rw [if_pos h2]
      positivity
    · rw [if_neg h2]
      positivity

/-- Relative-error bound for the float64 rounding of a positive rational:
the rounded value exceeds the exact one by at most a factor of
1 + 2 to the minus 53. -/
theorem fl_le {q : ℚ} (hq : 0 < q) : fl q ≤ q + q / 2 ^ 53 := by
  have hq2 : ¬ q ≤ 0 := not_le.mpr hq
  have hnum : 0 < q.num := Rat.num_pos.mpr hq
  have hn : 0 < q.num.toNat := by omega
  have hd : 0 < q.den := q.den_pos
  have hx : ((q.num.toNat : ℕ) : ℚ) / ((q.den : ℕ) : ℚ) = q := by
    have h1 : ((q.num.toNat : ℕ) : ℤ) = q.num := Int.toNat_of_nonneg (le_of_lt hnum)
    have h2 : ((q.num.toNat : ℕ) : ℚ) = ((q.num : ℤ) : ℚ) := by exact_mod_cast h1
    rw [h2]
    exact Rat.num_div_den q
  rw [fl, if_neg hq2]
  by_cases h52 : qLog2 q.num.toNat q.den ≤ 52
  · rw [if_pos h52]
    set n := q.num.toNat
    set d := q.den
    set s := ((52:ℤ) - qLog2 n d).toNat with hs
    set F := flRound (n * 2 ^ s) d with hF
    have key : 2 ^ 52 * d ≤ n * 2 ^ s := qLog2_small_lower hn hd h52
    have est : 2 * d * F ≤ 2 * (n * 2 ^ s) + d := flRound_le_half _ d hd
    have hgoal : (F : ℚ) / ((2 ^ s : ℕ) : ℚ) ≤ ((n : ℕ) : ℚ) / d + (((n : ℕ) : ℚ) / d) / 2 ^ 53 := by
      have hrhs : ((n : ℕ) : ℚ) / d + (((n : ℕ) : ℚ) / d) / 2 ^ 53 =
          ((n * (2 ^ 53 + 1) : ℕ) : ℚ) / ((d * 2 ^ 53 : ℕ) : ℚ) := by
        push_cast
        field_simp
        ring
      rw [hrhs, div_le_div_iff (by positivity) (by positivity)]
      have hnat : F * (d * 2 ^ 53) ≤ n * (2 ^ 53 + 1) * 2 ^ s := by
        have step1 : 2 ^ 52 * (2 * d * F) ≤ 2 ^ 52 * (2 * (n * 2 ^ s) + d) :=
          Nat.mul_le_mul_left _ est
        have e1 : 2 ^ 52 * (2 * d * F) = F * (d * 2 ^ 53) := by ring
        have e2 : 2 ^ 52 * (2 * (n * 2 ^ s) + d) = n * 2 ^ s * 2 ^ 53 + 2 ^ 52 * d := by ring
        have e3 : n * 2 ^ s * 2 ^ 53 + 2 ^ 52 * d ≤ n * 2 ^ s * 2 ^ 53 + n * 2 ^ s := by omega
        have e4 : n * 2 ^ s * 2 ^ 53 + n * 2 ^ s = n * (2 ^ 53 + 1) * 2 ^ s := by ring
        omega
      exact_mod_cast hnat
    calc ((F : ℕ) : ℚ) / ((2 ^ s : ℕ) : ℚ) ≤ ((n : ℕ) : ℚ) / d + (((n : ℕ) : ℚ) / d) / 2 ^ 53 := hgoal
    _ = q + q / 2 ^ 53 := by rw [hx]
  · rw [if_neg h52]
    set n := q.num.toNat
    set d := q.den
    set t := (qLog2 n d - 52).toNat with ht
    set D := d * 2 ^ t with hD
    set F := flRound n D with hF
    have hDpos : 0 < D := by positivity
    have key : 2 ^ 52 * D ≤ n := qLog2_large_lower hn hd (by omega)
    have est : 2 * D * F ≤ 2 * n + D := flRound_le_half n D hDpos
    have hgoal : ((F * 2 ^ t : ℕ) : ℚ) ≤ ((n : ℕ) : ℚ) / d + (((n : ℕ) : ℚ) / d) / 2 ^ 53 := by
      have hrhs : ((n : ℕ) : ℚ) / d + (((n : ℕ) : ℚ) / d) / 2 ^ 53 =
          ((n * (2 ^ 53 + 1) : ℕ) : ℚ) / ((d * 2 ^ 53 : ℕ) : ℚ) := by
        push_cast
        field_simp
        ring
      rw [hrhs, le_div_iff (by positivity)]
      have hnat : F * 2 ^ t * (d * 2 ^ 53) ≤ n * (2 ^ 53 + 1) := by
        have step1 : 2 ^ 52 * (2 * D * F) ≤ 2 ^ 52 * (2 * n + D) :=
          Nat.mul_le_mul_left _ est
        have e1 : 2 ^ 52 * (2 * D * F) = F * 2 ^ t * (d * 2 ^ 53) := by
          rw [hD]
          ring
        have e2 : 2 ^ 52 * (2 * n + D) = n * 2 ^ 53 + 2 ^ 52 * D := by ring
        omega
      exact_mod_cast hnat
    calc ((F * 2 ^ t : ℕ) : ℚ) ≤ ((n : ℕ) : ℚ) / d + (((n : ℕ) : ℚ) / d) / 2 ^ 53 := hgoal
    _ = q + q / 2 ^ 53 := by rw [hx]

/-- Base case of the logarithm. -/
theorem lg2_one : lg2 1 = 0 := by rfl

/-- Rounding with denominator one is the identity. -/
theorem flRound_one (N : ℕ) : flRound N 1 = N := by
  rw [flRound]
  simp [Nat.mod_one]

/-- Binade of a positive natural number. -/
theorem qLog2_natCast (n : ℕ) (hn : 0 < n) : qLog2 n 1 = (lg2 n : ℤ) := by
  rw [qLog2, lg2_one]
  rw [if_pos (Nat.zero_le _)]
  have ht : 1 * 2 ^ (lg2 n - 0) ≤ n := by
    rw [one_mul, Nat.sub_zero]
    exact (lg2_spec n (by omega)).1
  rw [if_pos ht]
  simp

/-- A natural number below 2 to the 53 is exactly representable in
float64. -/
theorem fl_natCast {n : ℕ} (h : n < 2 ^ 53) : fl (n : ℚ) = n := by
  rcases Nat.eq_zero_or_pos n with h0 | h0
  · subst h0
    rw [fl, if_pos (by norm_num)]
    norm_num
  · have hq : ¬ ((n : ℚ) ≤ 0) := not_le.mpr (by exact_mod_cast h0)
    have hnum : (n : ℚ).num.toNat = n := by
      rw [Rat.num_natCast]
      exact Int.toNat_natCast n
    have hden : (n : ℚ).den = 1 := Rat.den_natCast n
    have ha : lg2 n ≤ 52 := lg2_le (by omega) (lt_of_lt_of_le h (by norm_num))
    rw [fl, if_neg hq, hnum, hden, qLog2_natCast n h0]
    rw [if_pos (by exact_mod_cast ha)]
    have hs : ((52 : ℤ) - (lg2 n : ℕ)).toNat = 52 - lg2 n := by omega
    rw [hs, flRound_one]
    push_cast
    rw [mul_div_assoc, div_self (by positivity), mul_one]

/-- A natural number in the binade of 2 to the 53 rounds to the nearest
even multiple of two. -/
theorem fl_natCast_large {n : ℕ} (h1 : 2 ^ 53 ≤ n) (h2 : n < 2 ^ 54) :
    fl (n : ℚ) = ((flRound n 2 * 2 : ℕ) : ℚ) := by
  have hq : ¬ ((n : ℚ) ≤ 0) := not_le.mpr (by
    have : (0:ℕ) < n := by positivity
    exact_mod_cast this)
  have hnum : (n : ℚ).num.toNat = n := by
    rw [Rat.num_natCast]
    exact Int.toNat_natCast n
  have hden : (n : ℚ).den = 1 := Rat.den_natCast n
  have ha : lg2 n = 53 := le_antisymm (lg2_le (by positivity) h2) (lg2_ge (by positivity) h1)
  rw [fl, if_neg hq, hnum, hden, qLog2_natCast n (by positivity), ha]
  rw [if_neg (by norm_num)]
  norm_num

/-!
The claims.
-/

/-- C1: the supply-cap invariant TotalSupply at most MaxSupply is NOT
preserved by MintNewNAI.  From the state stC1, which satisfies the
invariant (and the active-stake accounting invariant), the epoch reward is
clamped to the headroom 100, but the per-stake-unit rate is fixed before
the activation sweep; the sweep then activates validator 2, which also
receives a full 100, so 200 is minted into headroom 100 and the total
supply lands at 1200, above the max supply of 1100.  The float64 steps of
the source are exact at these inputs (the rate is 100 / 2^32, a dyadic
rational), and the outcome does not depend on the map iteration order. -/
theorem c1_mint_exceeds_max_supply :
    stC1.totalSupply ≤ stC1.maxSupply ∧
    activeStakeSum stC1.validators = stC1.totalStaked ∧
    getRewardsPerEpoch stC1 = 100 ∧
    (mintNewNAI stC1 10 500).2.totalSupply = 1200 ∧
    (mintNewNAI stC1 10 500).2.maxSupply < (mintNewNAI stC1 10 500).2.totalSupply := by
  refine ⟨by decide, by with_unfolding_all decide, by with_unfolding_all decide,
    by with_unfolding_all decide, by with_unfolding_all decide⟩

/-- C2: the invariant that TotalStaked equals the active-stake sum is NOT
preserved by WithdrawValidatorStake.  From stC2, where it holds (150 on
both sides), withdrawing validator 1 (active, one delegator) subtracts only
the own stake of 100 and marks the validator inactive while keeping the
entry: TotalStaked becomes 50 but the active-stake sum becomes 0, so the
delegated 50 is orphaned inside TotalStaked. -/
theorem c2_withdraw_breaks_total_staked_invariant :
    activeStakeSum stC2.validators = stC2.totalStaked ∧
    (withdrawValidatorStake stC2 1).2.totalStaked = 50 ∧
    activeStakeSum (withdrawValidatorStake stC2 1).2.validators = 0 := by
  refine ⟨by with_unfolding_all decide, by with_unfolding_all decide,
    by with_unfolding_all decide⟩

/-- C3: the lifecycle sweep of MintNewNAI has no previously-inactive check
on its activation branch (emission.go line 427): for the already-active
in-window validator of stC3 at timestamp 500, the sweep adds the full stake
to TotalStaked AGAIN, taking it from 100 to 200 while the active-stake sum
stays 100 and no rewards are minted (the epoch reward rounds to 0 at this
stake level), instead of leaving TotalStaked unchanged as the spec states. -/
theorem c3_sweep_double_adds_active_stake :
    stC3.totalStaked = 100 ∧
    activeStakeSum stC3.validators = 100 ∧
    (mintNewNAI stC3 10 500).1 = 0 ∧
    (mintNewNAI stC3 10 500).2.totalStaked = 200 ∧
    activeStakeSum (mintNewNAI stC3 10 500).2.validators = 100 := by
  refine ⟨by decide, by with_unfolding_all decide, by with_unfolding_all decide,
    by with_unfolding_all decide, by with_unfolding_all decide⟩

/-- C4 counterexample: two RegisterValidatorStake calls in a row for node 1
from the empty state both succeed; the second does NOT fail with
ValidatorAlreadyRegistered, because the first call leaves the validator
inactive (activation only happens in the lifecycle sweep), and an inactive
entry is updated in place, doubling the staked amount to 1000. -/
theorem c4_second_register_succeeds :
    (registerValidatorStake stEmpty 1 77 0 1000000 500 10).1 = .ok () ∧
    (registerValidatorStake (registerValidatorStake stEmpty 1 77 0 1000000 500 10).2
      1 77 0 1000000 500 10).1 = .ok () ∧
    ((registerValidatorStake (registerValidatorStake stEmpty 1 77 0 1000000 500 10).2
      1 77 0 1000000 500 10).2.validators.map (fun p => p.2.stakedAmount)) = [1000] := by
  refine ⟨by with_unfolding_all decide, by with_unfolding_all decide,
    by with_unfolding_all decide⟩

/-- C4 amended: RegisterValidatorStake on an existing entry fails with
ValidatorAlreadyRegistered exactly when the entry is active at call time
(leaving the state untouched); on an existing inactive entry — as after a
first registration with no intervening activation sweep — it succeeds and
updates the entry in place, incrementing the staked amount and replacing
the public key, fee rate and stake window. -/
theorem c4_register_error_iff_active (e : EmissionState)
    (nodeID pk s t amt fr : ℕ) (v : Validator)
    (hv : lookupA nodeID e.validators = some v) :
    (v.isActive = true →
      (registerValidatorStake e nodeID pk s t amt fr).1 = .error .validatorAlreadyRegistered ∧
      (registerValidatorStake e nodeID pk s t amt fr).2 = e) ∧
    (v.isActive = false →
      (registerValidatorStake e nodeID pk s t amt fr).1 = .ok () ∧
      lookupA nodeID (registerValidatorStake e nodeID pk s t amt fr).2.validators =
        some { v with publicKey := pk, stakedAmount := add64 v.stakedAmount amt,
                      delegationFeeRate := (fr : ℚ) / 100,
                      stakeStartTime := s, stakeEndTime := t }) := by
  constructor
  · intro ha
    simp [registerValidatorStake, hv, ha]
  · intro ha
    simp [registerValidatorStake, hv, ha, lookupA_setAssoc]

/-- Witness for the amended C4 at a concrete input: registering node 1 of
stC3, whose entry is active, fails with ValidatorAlreadyRegistered and
leaves the state unchanged. -/
theorem c4_register_error_iff_active_witness :
    (registerValidatorStake stC3 1 77 0 1000000 500 10).1 = .error .validatorAlreadyRegistered ∧
    (registerValidatorStake stC3 1 77 0 1000000 500 10).2 = stC3 :=
  (c4_register_error_iff_active stC3 1 77 0 1000000 500 10 valT (by rfl)).1 (by decide)

/-- C6 counterexample: from stC6 — whose validator has a delegated pool of
50 but a recorded epoch-0 delegation reward of 100 now wholly attributable
to the sole remaining delegator 5 — CalculateUserDelegationRewards computes
100, which exceeds the pool of 50, and the successful UndelegateUserStake
decrements the pool by 100, wrapping the uint64 to 2^64 - 50.  The per-epoch
share 100/100 of the source float64 arithmetic is exact here. -/
theorem c6_undelegate_pool_wraps :
    calculateUserDelegationRewards stC6 getStakeC6 1 5 10 = .ok 100 ∧
    (stC6.validators.map (fun p => p.2.unclaimedDelegatedReward)) = [50] ∧
    (undelegateUserStake stC6 getStakeC6 10 1 5 100).1 = .ok 100 ∧
    ((undelegateUserStake stC6 getStakeC6 10 1 5 100).2.validators.map
      (fun p => p.2.unclaimedDelegatedReward)) = [18446744073709551566] := by
  refine ⟨by with_unfolding_all decide, by with_unfolding_all decide,
    by with_unfolding_all decide, by with_unfolding_all decide⟩

/-- C6 amended: the decrement of UnclaimedDelegatedReward during a
successful UndelegateUserStake does not underflow exactly when the computed
reward is at most the current pool; under that cover condition (which the
code does not enforce, and which fails when DelegatedAmount has shrunk
since the rewarded epochs, as c6_undelegate_pool_wraps shows) the new pool
is the plain difference. -/
theorem c6_undelegate_no_underflow_when_covered (e : EmissionState)
    (getStake : ℕ → ℕ → StakeLookup) (h nodeID actor amt r : ℕ) (v : Validator)
    (hv : lookupA nodeID e.validators = some v)
    (hact : v.isActive = true)
    (hr : calculateUserDelegationRewards e getStake nodeID actor h = .ok r)
    (hle : r ≤ v.unclaimedDelegatedReward)
    (hw : v.unclaimedDelegatedReward < W64) :
    (undelegateUserStake e getStake h nodeID actor amt).1 = .ok r ∧
    ∃ v2 : Validator,
      lookupA nodeID (undelegateUserStake e getStake h nodeID actor amt).2.validators = some v2 ∧
      v2.unclaimedDelegatedReward = v.unclaimedDelegatedReward - r := by
  obtain ⟨lc, hlc⟩ : ∃ lc, lookupA actor v.delegatorsLastClaim = some lc := by
    cases hlc : lookupA actor v.delegatorsLastClaim with
    | none =>
      simp only [calculateUserDelegationRewards, hv, hlc] at hr
      exact Except.noConfusion hr
    | some lc => exact ⟨lc, rfl⟩
  simp only [undelegateUserStake, hv, hlc, hr, hact, Bool.true_eq_false, false_and, if_false]
  exact ⟨trivial, _, lookupA_setAssoc nodeID _ _, sub64_eq hle hw⟩

/-- Witness for the amended C6 at a concrete input: in stC6w the sole
delegator claim of 100 is fully covered by the pool of 100, so the
undelegation succeeds and leaves the pool at the plain difference 0. -/
theorem c6_undelegate_no_underflow_when_covered_witness :
    (undelegateUserStake stC6w getStakeC6 10 1 5 100).1 = .ok 100 ∧
    ∃ v2 : Validator,
      lookupA 1 (undelegateUserStake stC6w getStakeC6 10 1 5 100).2.validators = some v2 ∧
      v2.unclaimedDelegatedReward = valC6w.unclaimedDelegatedReward - 100 :=
  c6_undelegate_no_underflow_when_covered stC6w getStakeC6 10 1 5 100 100 valC6w
    (by rfl) (by rfl) (by with_unfolding_all decide) (by decide) (by decide)

/-- C7: WithdrawValidatorStake on a registered validator.  With at least
one delegator it returns exactly the unclaimed staked reward (zeroing that
field), marks the entry inactive, subtracts the staked amount from
TotalStaked only if the validator was active, keeps the entry (with the
unclaimed delegated reward untouched inside it) and does not fold that
reward into the returned amount.  With zero delegators it additionally
folds in and zeroes the unclaimed delegated reward, subtracts the delegated
amount from TotalStaked, and deletes the entry.  The bound hypotheses rule
out uint64 wrap-around, as in any state where TotalStaked covers the
validator stake. -/
theorem c7_withdraw_validator_stake_spec (e : EmissionState) (nodeID : ℕ) (v : Validator)
    (hv : lookupA nodeID e.validators = some v)
    (hkeys : (e.validators.map Prod.fst).Nodup)
    (hstake : v.stakedAmount + v.delegatedAmount ≤ e.totalStaked)
    (hts : e.totalStaked < W64)
    (hrw : v.unclaimedStakedReward + v.unclaimedDelegatedReward < W64) :
    (0 < v.delegatorsLastClaim.length →
      (withdrawValidatorStake e nodeID).1 = .ok v.unclaimedStakedReward ∧
      lookupA nodeID (withdrawValidatorStake e nodeID).2.validators =
        some { v with unclaimedStakedReward := 0, isActive := false } ∧
      (withdrawValidatorStake e nodeID).2.totalStaked =
        e.totalStaked - (if v.isActive then v.stakedAmount else 0)) ∧
    (v.delegatorsLastClaim.length = 0 →
      (withdrawValidatorStake e nodeID).1 =
        .ok (v.unclaimedStakedReward + v.unclaimedDelegatedReward) ∧
      lookupA nodeID (withdrawValidatorStake e nodeID).2.validators = none ∧
      (withdrawValidatorStake e nodeID).2.totalStaked =
        e.totalStaked - (if v.isActive then v.stakedAmount else 0) - v.delegatedAmount) := by
  have hS : v.stakedAmount ≤ e.totalStaked := le_trans (Nat.le_add_right _ _) hstake
  constructor
  · intro hd
    have hlen : ¬ v.delegatorsLastClaim.length = 0 := by omega
    simp only [withdrawValidatorStake, hv, hlen, if_false]
    refine ⟨trivial, lookupA_setAssoc nodeID _ _, ?_⟩
    by_cases ha : v.isActive
    · simp only [ha, if_true]
      exact sub64_eq hS hts
    · simp [ha]
  · intro hd
    simp only [withdrawValidatorStake, hv, hd, if_true]
    refine ⟨?_, lookupA_eraseAssoc nodeID e.validators hkeys, ?_⟩
    · rw [add64_eq hrw]
    · by_cases ha : v.isActive
      · simp only [ha, if_true]
        rw [sub64_eq hS hts, sub64_eq (by omega) (by omega)]
      · simp only [ha, if_false, Bool.false_eq_true]
        rw [sub64_eq (by omega) hts]
        omega

/-- Witness for C7 at concrete inputs: withdrawing validator 1 of stC2
(one delegator) keeps the entry, pays only the staked reward and subtracts
only the own stake; withdrawing validator 1 of stC3 (no delegators) deletes
the entry, folds in the delegated pool and subtracts the delegated amount
too. -/
theorem c7_withdraw_validator_stake_spec_witness :
    ((withdrawValidatorStake stC2 1).1 = .ok valC2.unclaimedStakedReward ∧
     lookupA 1 (withdrawValidatorStake stC2 1).2.validators =
       some { valC2 with unclaimedStakedReward := 0, isActive := false } ∧
     (withdrawValidatorStake stC2 1).2.totalStaked =
       stC2.totalStaked - (if valC2.isActive then valC2.stakedAmount else 0)) ∧
    ((withdrawValidatorStake stC3 1).1 =
       .ok (valT.unclaimedStakedReward + valT.unclaimedDelegatedReward) ∧
     lookupA 1 (withdrawValidatorStake stC3 1).2.validators = none ∧
     (withdrawValidatorStake stC3 1).2.totalStaked =
       stC3.totalStaked - (if valT.isActive then valT.stakedAmount else 0) -
         valT.delegatedAmount) :=
  ⟨(c7_withdraw_validator_stake_spec stC2 1 valC2 (by rfl) (by decide) (by decide)
      (by decide) (by decide)).1 (by decide),
   (c7_withdraw_validator_stake_spec stC3 1 valT (by rfl) (by decide) (by decide)
      (by decide) (by decide)).2 (by rfl)⟩

/-- C8 counterexample: the clamp check of DistributeFees adds the fee to
the total supply in wrapping uint64 arithmetic, so for the fee 2^64 - 500
from stC8 (supply 990 of max 1000) the wrapped sum 490 passes the check,
the fee is NOT clamped to the headroom 10, and the emission account is
credited (2^64 - 500) / 2 = 9223372036854775558 instead of the
floor(min(fee, MaxSupply - TotalSupply) / 2) = 5 the claim states; the
total supply itself stays unchanged. -/
theorem c8_fee_clamp_overflow :
    stC8.totalSupply ≤ stC8.maxSupply ∧
    (distributeFees stC8 0 (W64 - 500)).totalSupply = stC8.totalSupply ∧
    (distributeFees stC8 0 (W64 - 500)).emissionUnclaimedBalance = 9223372036854775558 ∧
    min (W64 - 500) (stC8.maxSupply - stC8.totalSupply) / 2 = 5 ∧
    (9223372036854775558 : ℕ) ≠ 5 := by
  refine ⟨by decide, by with_unfolding_all decide, by with_unfolding_all decide,
    by decide, by decide⟩

/-- C8 amended: for every state and every fee whose addition to the total
supply does not overflow uint64, DistributeFees leaves TotalSupply
unchanged and credits the emission account exactly
floor(min(fee, MaxSupply - TotalSupply) / 2); and in the concrete scenario
stSc (one active validator of stake 100, no delegators, fee rate 0.1, fee
100) the emission account is credited 50 and the validator unclaimed staked
reward is credited 50. -/
theorem c8_distribute_fees_spec :
    (∀ (e : EmissionState) (t fee : ℕ),
      e.totalSupply ≤ e.maxSupply → e.maxSupply < W64 →
      e.totalSupply + fee < W64 →
      e.emissionUnclaimedBalance + min fee (e.maxSupply - e.totalSupply) / 2 < W64 →
      (distributeFees e t fee).totalSupply = e.totalSupply ∧
      (distributeFees e t fee).emissionUnclaimedBalance =
        e.emissionUnclaimedBalance + min fee (e.maxSupply - e.totalSupply) / 2) ∧
    ((distributeFees stSc 500 100).totalSupply = stSc.totalSupply ∧
     (distributeFees stSc 500 100).emissionUnclaimedBalance = 50 ∧
     ((distributeFees stSc 500 100).validators.map
       (fun p => p.2.unclaimedStakedReward)) = [50]) := by
  constructor
  · intro e t fee hcap hmax hnof hbal
    have hfee2 : (if add64 e.totalSupply fee > e.maxSupply
        then sub64 e.maxSupply e.totalSupply else fee)
        = min fee (e.maxSupply - e.totalSupply) := by
      rw [add64_eq hnof]
      by_cases hc : e.totalSupply + fee > e.maxSupply
      · rw [if_pos hc, sub64_eq hcap hmax]
        omega
      · rw [if_neg hc]
        omega
    simp only [distributeFees, hfee2, add64_eq hbal]
    by_cases hc2 : e.totalStaked = 0 ∨
        min fee (e.maxSupply - e.totalSupply) -
          min fee (e.maxSupply - e.totalSupply) / 2 = 0
    · simp only [if_pos hc2]
      exact ⟨trivial, trivial⟩
    · simp only [if_neg hc2]
      exact ⟨trivial, trivial⟩
  · refine ⟨by with_unfolding_all decide, by with_unfolding_all decide,
      by with_unfolding_all decide⟩

/-- Witness for the amended C8 at a concrete input: from stSc with fee 100,
the emission account balance moves from 0 to floor(min(100, headroom)/2). -/
theorem c8_distribute_fees_spec_witness :
    (distributeFees stSc 500 100).totalSupply = stSc.totalSupply ∧
    (distributeFees stSc 500 100).emissionUnclaimedBalance =
      stSc.emissionUnclaimedBalance + min 100 (stSc.maxSupply - stSc.totalSupply) / 2 :=
  c8_distribute_fees_spec.1 stSc 500 100 (by decide) (by decide) (by decide) (by decide)

/-- C9 counterexample: the delegation share is NOT floor(total * rate) on
the whole uint64 domain the claim quantifies over.  At total 2^53 + 1 and
rate 1 the float64 conversion rounds the total down to 2^53 (ties-to-even),
so the share is 9007199254740992 while floor(total * 1) is the total
itself; at total 2^53 + 3 and rate 1 the conversion rounds UP to
2^53 + 4, the uint64 subtraction of the larger share wraps, and the two
returned shares no longer sum to the total. -/
theorem c9_split_rounding_counterexample :
    (distributeValidatorRewards 9007199254740993 1 50).2 = 9007199254740992 ∧
    goFloor ((9007199254740993 : ℚ) * 1) = 9007199254740993 ∧
    (distributeValidatorRewards 9007199254740993 1 50).2 ≠
      goFloor ((9007199254740993 : ℚ) * 1) ∧
    (distributeValidatorRewards 9007199254740995 1 50).1 +
      (distributeValidatorRewards 9007199254740995 1 50).2 ≠ 9007199254740995 := by
  have hfl1 : fl ((9007199254740993 : ℕ) : ℚ) = ((9007199254740992 : ℕ) : ℚ) := by
    rw [fl_natCast_large (by norm_num) (by norm_num)]
    norm_num
    rw [show (9007199254740993 : ℕ) = 2 * 4503599627370496 + 1 by norm_num]
    rw [flRound]
    norm_num
  have hfl1b : fl ((9007199254740992 : ℕ) : ℚ) = ((9007199254740992 : ℕ) : ℚ) := by
    rw [fl_natCast_large (by norm_num) (by norm_num)]
    rw [show (9007199254740992 : ℕ) = 2 * 4503599627370496 by norm_num]
    rw [flRound]
    norm_num
  have hfl2 : fl ((9007199254740995 : ℕ) : ℚ) = ((9007199254740996 : ℕ) : ℚ) := by
    rw [fl_natCast_large (by norm_num) (by norm_num)]
    rw [show (9007199254740995 : ℕ) = 2 * 4503599627370497 + 1 by norm_num]
    rw [flRound]
    norm_num
  have hfl2b : fl ((9007199254740996 : ℕ) : ℚ) = ((9007199254740996 : ℕ) : ℚ) := by
    rw [fl_natCast_large (by norm_num) (by norm_num)]
    rw [show (9007199254740996 : ℕ) = 2 * 4503599627370498 by norm_num]
    rw [flRound]
    norm_num
  have hd1 : (distributeValidatorRewards 9007199254740993 1 50).2 = 9007199254740992 := by
    show goFloor (fl (fl ((9007199254740993 : ℕ) : ℚ) * 1)) = 9007199254740992
    rw [hfl1, mul_one, hfl1b]
    decide
  have hd2a : (distributeValidatorRewards 9007199254740995 1 50).2 = 9007199254740996 := by
    show goFloor (fl (fl ((9007199254740995 : ℕ) : ℚ) * 1)) = 9007199254740996
    rw [hfl2, mul_one, hfl2b]
    decide
  have hd2b : (distributeValidatorRewards 9007199254740995 1 50).1 = W64 - 1 := by
    show sub64 9007199254740995 (goFloor (fl (fl ((9007199254740995 : ℕ) : ℚ) * 1))) = W64 - 1
    rw [hfl2, mul_one, hfl2b]
    decide
  refine ⟨hd1, by with_unfolding_all decide, ?_, ?_⟩
  · rw [hd1]
    with_unfolding_all decide
  · rw [hd2a, hd2b]
    decide

/-- C9 amended: the reward/fee split of distributeValidatorRewards, stated
on the totals the float64 arithmetic represents exactly.  For every total
below 2^53 and fee-rate fraction in [0,1], a zero delegated amount sends
the whole total to the validator; a positive delegated amount gives the
delegators the truncation of the correctly rounded float64 product
total * rate, which never exceeds the total, and the validator the rest,
so the two shares sum exactly to the total with no wrap.  In particular a
total of 100 at the stored float64 nearest 0.2 splits into validator 80
and delegation 20. -/
theorem c9_distribute_validator_rewards_amended :
    (∀ (total : ℕ) (rate : ℚ) (d : ℕ),
      total < 2 ^ 53 → 0 ≤ rate → rate ≤ 1 →
      (d = 0 → distributeValidatorRewards total rate d = (total, 0)) ∧
      (0 < d →
        (distributeValidatorRewards total rate d).2 = goFloor (fl ((total : ℚ) * rate)) ∧
        (distributeValidatorRewards total rate d).2 ≤ total ∧
        (distributeValidatorRewards total rate d).1 =
          total - (distributeValidatorRewards total rate d).2 ∧
        (distributeValidatorRewards total rate d).1 +
          (distributeValidatorRewards total rate d).2 = total)) ∧
    distributeValidatorRewards 100 (fl (1/5)) 50 = (80, 20) := by
  constructor
  · intro total rate d htot h0 h1
    have hW : total < W64 := lt_trans htot (by norm_num [W64])
    constructor
    · intro hd
      subst hd
      simp only [distributeValidatorRewards, gt_iff_lt, lt_irrefl, if_false]
      rw [Prod.mk.injEq]
      refine ⟨?_, rfl⟩
      rw [sub64_eq (Nat.zero_le _) hW]
      omega
    · intro hd
      have hshare : (distributeValidatorRewards total rate d).2 =
          goFloor (fl ((total : ℚ) * rate)) := by
        simp only [distributeValidatorRewards]
        rw [if_pos hd, fl_natCast htot]
      have hle : goFloor (fl ((total : ℚ) * rate)) ≤ total := by
        have hx0 : 0 ≤ (total : ℚ) * rate := mul_nonneg (Nat.cast_nonneg _) h0
        rcases eq_or_lt_of_le hx0 with heq | hpos
        · rw [← heq]
          have hfl0 : fl 0 = 0 := by rw [fl, if_pos le_rfl]
          rw [hfl0]
          simp [goFloor]
        · have hfl := fl_le hpos
          have hxle : (total : ℚ) * rate ≤ (total : ℚ) := by
            calc (total : ℚ) * rate ≤ (total : ℚ) * 1 :=
                  mul_le_mul_of_nonneg_left h1 (Nat.cast_nonneg _)
            _ = (total : ℚ) := mul_one _
          have hcast : ((total : ℕ) : ℚ) < 2 ^ 53 := by
            exact_mod_cast htot
          have hlt : fl ((total : ℚ) * rate) < (total : ℚ) + 1 := by
            have h2 : (total : ℚ) * rate / 2 ^ 53 ≤ (total : ℚ) / 2 ^ 53 := by
              gcongr
            have h3 : (total : ℚ) / 2 ^ 53 < 1 := by
              rw [div_lt_one (by positivity)]
              exact hcast
            calc fl ((total : ℚ) * rate) ≤ (total : ℚ) * rate + (total : ℚ) * rate / 2 ^ 53 := hfl
            _ ≤ (total : ℚ) + (total : ℚ) / 2 ^ 53 := add_le_add hxle h2
            _ < (total : ℚ) + 1 := by linarith
          exact goFloor_le_of_lt (fl_nonneg _) hlt
      have hfst : (distributeValidatorRewards total rate d).1 =
          sub64 total ((distributeValidatorRewards total rate d).2) := by
        simp only [distributeValidatorRewards]
      refine ⟨hshare, ?_, ?_, ?_⟩
      · rw [hshare]
        exact hle
      · rw [hfst, hshare, sub64_eq hle hW]
      · rw [hfst, hshare, sub64_eq hle hW]
        omega
  · have h100 : fl ((100 : ℕ) : ℚ) = ((100 : ℕ) : ℚ) := fl_natCast (by norm_num)
    have hsh : (distributeValidatorRewards 100 (fl (1/5)) 50).2 =
        goFloor (fl (((100 : ℕ) : ℚ) * fl (1/5))) := by
      simp only [distributeValidatorRewards]
      rw [if_pos (by norm_num), h100]
    have hval : goFloor (fl (((100 : ℕ) : ℚ) * fl (1/5))) = 20 := by
      with_unfolding_all decide
    have hfst : (distributeValidatorRewards 100 (fl (1/5)) 50).1 =
        sub64 100 ((distributeValidatorRewards 100 (fl (1/5)) 50).2) := by
      simp only [distributeValidatorRewards]
    have h2nd : (distributeValidatorRewards 100 (fl (1/5)) 50).2 = 20 := by
      rw [hsh, hval]
    have h1st : (distributeValidatorRewards 100 (fl (1/5)) 50).1 = 80 := by
      rw [hfst, h2nd]
      decide
    exact Prod.ext h1st h2nd

/-- Witness for the amended C9 at a concrete input: at total 7, rate 1/2
(exact in float64), delegated 3, the two shares sum to 7. -/
theorem c9_distribute_validator_rewards_amended_witness :
    (distributeValidatorRewards 7 (1/2) 3).1 + (distributeValidatorRewards 7 (1/2) 3).2 = 7 :=
  (((c9_distribute_validator_rewards_amended.1 7 (1/2) 3 (by norm_num)
    (by norm_num) (by norm_num)).2 (by norm_num)).2.2.2)

/-- C10: whenever RegisterValidatorStake, WithdrawValidatorStake,
DelegateUserStake, UndelegateUserStake or ClaimStakingRewards returns an
error, the Emission aggregate is returned exactly as it was: every error
return in the source happens before any field, counter or map has been
mutated. -/
theorem c10_errors_leave_state_unchanged :
    (∀ (e : EmissionState) (nodeID pk s t amt fr : ℕ) (err : EmissionErr),
      (registerValidatorStake e nodeID pk s t amt fr).1 = .error err →
      (registerValidatorStake e nodeID pk s t amt fr).2 = e) ∧
    (∀ (e : EmissionState) (nodeID : ℕ) (err : EmissionErr),
      (withdrawValidatorStake e nodeID).1 = .error err →
      (withdrawValidatorStake e nodeID).2 = e) ∧
    (∀ (e : EmissionState) (hh nodeID d amt : ℕ) (err : EmissionErr),
      (delegateUserStake e hh nodeID d amt).1 = .error err →
      (delegateUserStake e hh nodeID d amt).2 = e) ∧
    (∀ (e : EmissionState) (gs : ℕ → ℕ → StakeLookup) (hh nodeID a amt : ℕ)
      (err : EmissionErr),
      (undelegateUserStake e gs hh nodeID a amt).1 = .error err →
      (undelegateUserStake e gs hh nodeID a amt).2 = e) ∧
    (∀ (e : EmissionState) (gs : ℕ → ℕ → StakeLookup) (hh nodeID a : ℕ)
      (err : EmissionErr),
      (claimStakingRewards e gs hh nodeID a).1 = .error err →
      (claimStakingRewards e gs hh nodeID a).2 = e) := by
  refine ⟨?_, ?_, ?_, ?_, ?_⟩
  · intro e nodeID pk s t amt fr err h
    cases hv : lookupA nodeID e.validators with
    | none => simp [registerValidatorStake, hv] at h
    | some v =>
      cases hb : v.isActive with
      | true => simp [registerValidatorStake, hv, hb]
      | false => simp [registerValidatorStake, hv, hb] at h
  · intro e nodeID err h
    cases hv : lookupA nodeID e.validators with
    | none => simp [withdrawValidatorStake, hv]
    | some v =>
      by_cases hlen : v.delegatorsLastClaim.length = 0 <;>
        simp [withdrawValidatorStake, hv, hlen] at h
  · intro e hh nodeID d amt err h
    cases hv : lookupA nodeID e.validators with
    | none => simp [delegateUserStake, hv]
    | some v =>
      cases hl : lookupA d v.delegatorsLastClaim with
      | none => simp [delegateUserStake, hv, hl] at h
      | some lc => simp [delegateUserStake, hv, hl]
  · intro e gs hh nodeID a amt err h
    cases hv : lookupA nodeID e.validators with
    | none => simp [undelegateUserStake, hv]
    | some v =>
      cases hl : lookupA a v.delegatorsLastClaim with
      | none => simp [undelegateUserStake, hv, hl]
      | some lc =>
        cases hcr : calculateUserDelegationRewards e gs nodeID a hh with
        | error err2 => simp [undelegateUserStake, hv, hl, hcr]
        | ok r =>
          simp only [undelegateUserStake, hv, hl, hcr] at h
          split at h <;> exact Except.noConfusion h
  · intro e gs hh nodeID a err h
    cases hv : lookupA nodeID e.validators with
    | none => simp [claimStakingRewards, hv]
    | some v =>
      by_cases hz : a = 0
      · by_cases hlen : v.delegatorsLastClaim.length = 0 <;>
          simp [claimStakingRewards, hv, hz, hlen] at h
      · cases hcr : calculateUserDelegationRewards e gs nodeID a hh with
        | error err2 => simp [claimStakingRewards, hv, hz, hcr]
        | ok r => simp [claimStakingRewards, hv, hz, hcr] at h

/-- Witness for C10 at a concrete input: withdrawing an unregistered node
from the empty state errors and returns the state unchanged. -/
theorem c10_errors_leave_state_unchanged_witness :
    (withdrawValidatorStake stEmpty 1).2 = stEmpty :=
  c10_errors_leave_state_unchanged.2.1 stEmpty 1 .validatorNotFound (by rfl)

end NuklaiVM
